import Mathlib

/-!
Verification development for the remote driver client core
(`src/remote_internal.c`): URI query codec, transport selection in
`remoteOpen`, and the RPC engine (`call`, `remoteClose`, serial counter).

C strings are embedded as `List Nat` of byte values; machine integers are
`Nat`/`Int` with explicit bounds where overflow matters.
-/

/-- Byte string of an ASCII Lean string literal (each char to its code point). -/
def bytesOf (s : String) : List Nat := s.toList.map Char.toNat

/-- ASCII lower-casing of one byte, as done by `tolower` in the C locale. -/
def asciiLower (c : Nat) : Nat := if 65 ≤ c ∧ c ≤ 90 then c + 32 else c

/-- Model of `strcasecmp (a, b) == 0`: equality up to ASCII case. -/
def strcaseeq (a b : List Nat) : Bool := a.map asciiLower == b.map asciiLower

/-! ## libxml2 URI escape / unescape routines used by the query codec -/

/-- `IS_ALPHANUM` from libxml2: ASCII letters and digits. -/
def IS_ALPHANUM (c : Nat) : Bool :=
  (65 ≤ c ∧ c ≤ 90) ∨ (97 ≤ c ∧ c ≤ 122) ∨ (48 ≤ c ∧ c ≤ 57)

/-- `IS_MARK` from libxml2: the characters `-_.!~*'()`. -/
def IS_MARK (c : Nat) : Bool :=
  c = 45 ∨ c = 95 ∨ c = 46 ∨ c = 33 ∨ c = 126 ∨ c = 42 ∨ c = 39 ∨ c = 40 ∨ c = 41

/-- `IS_UNRESERVED` from libxml2. -/
def IS_UNRESERVED (c : Nat) : Bool := IS_ALPHANUM c || IS_MARK c

/-- Hex digit character for a value below 16, upper case, as in `xmlURIEscapeStr`. -/
def hexDigitU (v : Nat) : Nat := if v ≤ 9 then 48 + v else 65 + v - 10

/-- One byte through `xmlURIEscapeStr` with an empty extra-safe list: kept
verbatim when `@` or unreserved, otherwise percent-escaped. -/
def escapeChar (c : Nat) : List Nat :=
  if c = 64 ∨ IS_UNRESERVED c then [c] else [37, hexDigitU (c / 16), hexDigitU (c % 16)]

/-- Model of `xmlURIEscapeStr (str, "")` from libxml2 (the escaping used by
`query_create`). -/
def xmlURIEscapeStr (s : List Nat) : List Nat := s.flatMap escapeChar

/-- `is_hex` from libxml2: ASCII hex digit. -/
def is_hex (c : Nat) : Bool :=
  (48 ≤ c ∧ c ≤ 57) ∨ (97 ≤ c ∧ c ≤ 102) ∨ (65 ≤ c ∧ c ≤ 70)

/-- Numeric value of an ASCII hex digit. -/
def hexVal (c : Nat) : Nat :=
  if 48 ≤ c ∧ c ≤ 57 then c - 48
  else if 97 ≤ c ∧ c ≤ 102 then c - 97 + 10
  else c - 65 + 10

/-- Model of `xmlURIUnescapeString` from libxml2 on an explicit byte list:
`%xy` with two hex digits decodes to one byte, everything else is copied. -/
def xmlURIUnescapeString : List Nat → List Nat
  | c1 :: c2 :: c3 :: rest =>
    if c1 = 37 ∧ is_hex c2 ∧ is_hex c3 then
      (hexVal c2 * 16 + hexVal c3) :: xmlURIUnescapeString rest
    else
      c1 :: xmlURIUnescapeString (c2 :: c3 :: rest)
  | c :: rest => c :: xmlURIUnescapeString rest
  | [] => []

/-- `xmlURIUnescapeString (s, len, NULL)` as called by `query_parse`: libxml2
replaces a `len` of `0` by `strlen (s)`, so a zero length unescapes the whole
remaining string. -/
def xmlURIUnescapeLen (s : List Nat) (len : Nat) : List Nat :=
  if len = 0 then xmlURIUnescapeString s else xmlURIUnescapeString (s.take len)

/-! ## The query codec (`struct query_fields`, `query_parse`, `query_create`) -/

/-- One `struct query_fields` node: unescaped name, unescaped value, and the
`ignore` flag consulted by `query_create`. -/
structure QField where
  name : List Nat
  value : List Nat
  ignore : Bool
deriving DecidableEq

/-- Loop body of `query_parse` with the default separator `"&"` (byte 38).
`fuel` bounds the number of iterations; each iteration consumes at least one
byte, so `fuel = s.length` always suffices (see `query_parse`).  Mirrors the
C loop: find the next separator (`e`) and the first `=` (byte 61, position
`eqi`, only relevant when inside the section); an empty section or one that
starts with `=` yields no field; a section without `=` or ending in `=` gets
an empty value. -/
def query_parse_go (fuel : Nat) (s : List Nat) : List QField :=
  match fuel, s with
  | _, [] => []
  | 0, _ :: _ => []
  | fuel + 1, c :: s0 =>
    let s := c :: s0
    let e := s.findIdx (· == 38)
    let eqi := s.findIdx (· == 61)
    let rest := query_parse_go fuel (s.drop (e + 1))
    if e = 0 then rest
    else if e ≤ eqi then
      { name := xmlURIUnescapeLen s e, value := [], ignore := false } :: rest
    else if eqi + 1 = e then
      { name := xmlURIUnescapeLen s eqi, value := [], ignore := false } :: rest
    else if eqi = 0 then rest
    else
      { name := xmlURIUnescapeLen s eqi,
        value := xmlURIUnescapeLen (s.drop (eqi + 1)) (e - (eqi + 1)),
        ignore := false } :: rest

/-- `query_parse (query, NULL, &fields)`: `NULL` or empty input gives the
empty list, otherwise the loop above runs over the whole string. -/
def query_parse (q : List Nat) : List QField :=
  if q = [] then [] else query_parse_go q.length q

/-- Loop of `query_create` with the default separator: skip ignored fields,
emit `sep` before every emitted field except the first, escape name and
value and join them with `=`. -/
def query_create_loop (append_sep : Bool) : List QField → List Nat
  | [] => []
  | f :: rest =>
    if f.ignore then query_create_loop append_sep rest
    else
      (if append_sep then [38] else []) ++
        xmlURIEscapeStr f.name ++ 61 :: xmlURIEscapeStr f.value ++
        query_create_loop true rest

/-- `query_create (fields, NULL, &query)` as a function to the produced query
string (empty when every field is ignored). -/
def query_create (fields : List QField) : List Nat := query_create_loop false fields

/-- Encoding of a single non-ignored field inside `query_create`. -/
def field_enc (n v : List Nat) : List Nat :=
  xmlURIEscapeStr n ++ 61 :: xmlURIEscapeStr v

/-! ## `remoteOpen`: transport selection, defaults, query extraction -/

/-- The `transport` enumeration from the source. -/
inductive Transport where
  | tls
  | unix
  | ssh
  | ext
  | tcp
deriving DecidableEq

/-- The parts of a parsed `xmlURIPtr` consumed by `remoteOpen`.  A `port` of
`0` means the URI carried no port. -/
structure URI where
  scheme : Option (List Nat)
  server : Option (List Nat)
  port : Nat
  user : Option (List Nat)
  query : Option (List Nat)
deriving DecidableEq

/-- `get_transport_from_scheme`: the substring after the first `+` (byte 43)
of the scheme, or none when the scheme has no `+`. -/
def get_transport_from_scheme (scheme : List Nat) : Option (List Nat) :=
  let i := scheme.findIdx (· == 43)
  if i < scheme.length then some (scheme.drop (i + 1)) else none

/-- The `strcasecmp` chain of `remoteOpen` choosing the transport: a missing
suffix or `tls` gives TLS, then `unix`, `ssh`, `ext`, `tcp`; anything else is
the error case (`none` here). -/
def parse_transport (ts : Option (List Nat)) : Option Transport :=
  match ts with
  | none => some .tls
  | some s =>
    if strcaseeq s (bytesOf "tls") then some .tls
    else if strcaseeq s (bytesOf "unix") then some .unix
    else if strcaseeq s (bytesOf "ssh") then some .ssh
    else if strcaseeq s (bytesOf "ext") then some .ext
    else if strcaseeq s (bytesOf "tcp") then some .tcp
    else none

/-- Modelled from the spec: the TLS port constant `LIBVIRTD_TLS_PORT` lives in
a header that is not part of `src/`; the spec quotes 16514 for the configured
TLS port. -/
def LIBVIRTD_TLS_PORT : List Nat := bytesOf "16514"

/-- Modelled from the spec: the TCP port constant `LIBVIRTD_TCP_PORT` lives in
a header that is not part of `src/`. -/
def LIBVIRTD_TCP_PORT : List Nat := bytesOf "16509"

/-- Modelled from the spec: the read-write default Unix socket path constant
`LIBVIRTD_UNIX_SOCKET` lives in a header that is not part of `src/`. -/
def LIBVIRTD_UNIX_SOCKET : List Nat := bytesOf "/var/run/libvirt/libvirt-sock"

/-- Modelled from the spec: the read-only default Unix socket path constant
`LIBVIRTD_UNIX_SOCKET_RO` lives in a header that is not part of `src/`. -/
def LIBVIRTD_UNIX_SOCKET_RO : List Nat := bytesOf "/var/run/libvirt/libvirt-sock-ro"

/-- The `if (uri->port != 0) ... else if ...` chain of `remoteOpen` resolving
the port string and (only in the SSH arm of the chain) the user name. -/
def resolve_port_user (t : Transport) (uriPort : Nat) (user : Option (List Nat)) :
    Option (List Nat) × Option (List Nat) :=
  if uriPort ≠ 0 then (some (bytesOf (toString uriPort)), none)
  else if t = .tls then (some LIBVIRTD_TLS_PORT, none)
  else if t = .tcp then (some LIBVIRTD_TCP_PORT, none)
  else if t = .ssh then (some (bytesOf "22"), user)
  else (none, none)

/-- Model of libc `atoi`: skip whitespace, optional sign, leading digits. -/
def atoiDigits : List Nat → Nat → Nat
  | c :: rest, acc => if 48 ≤ c ∧ c ≤ 57 then atoiDigits rest (acc * 10 + (c - 48)) else acc
  | [], acc => acc

/-- Model of libc `atoi` (used for the `no_verify` query value). -/
def atoi (s : List Nat) : Int :=
  let s1 := s.dropWhile (fun c => c = 32 ∨ (9 ≤ c ∧ c ≤ 13))
  match s1 with
  | 45 :: rest => -(atoiDigits rest 0 : Int)
  | 43 :: rest => (atoiDigits rest 0 : Int)
  | _ => (atoiDigits s1 0 : Int)

/-- The typed variables `remoteOpen` extracts from the query fields. -/
structure ExtractAcc where
  name : Option (List Nat)
  command : Option (List Nat)
  sockname : Option (List Nat)
  netcat : Option (List Nat)
  no_verify : Int
deriving DecidableEq

/-- Initial extraction state (all variables unset, `no_verify = 0`). -/
def extract_init : ExtractAcc := ⟨none, none, none, none, 0⟩

/-- One iteration of the `for (var = vars; ...)` loop in `remoteOpen`: the
five reserved keys are matched with `strcasecmp`, stored, and marked
ignored; other fields pass through untouched. -/
def extractStep (acc : ExtractAcc) (f : QField) : ExtractAcc × QField :=
  if strcaseeq f.name (bytesOf "name") then
    ({ acc with name := some f.value }, { f with ignore := true })
  else if strcaseeq f.name (bytesOf "command") then
    ({ acc with command := some f.value }, { f with ignore := true })
  else if strcaseeq f.name (bytesOf "socket") then
    ({ acc with sockname := some f.value }, { f with ignore := true })
  else if strcaseeq f.name (bytesOf "netcat") then
    ({ acc with netcat := some f.value }, { f with ignore := true })
  else if strcaseeq f.name (bytesOf "no_verify") then
    ({ acc with no_verify := atoi f.value }, { f with ignore := true })
  else (acc, f)

/-- The whole extraction loop, keeping the (possibly re-marked) fields in
their original order. -/
def extractVars (acc : ExtractAcc) : List QField → ExtractAcc × List QField
  | [] => (acc, [])
  | f :: rest =>
    ((extractVars (extractStep acc f).1 rest).1,
      (extractStep acc f).2 :: (extractVars (extractStep acc f).1 rest).2)

/-- Reserved-key test equivalent to the `strcasecmp` chain of `extractStep`. -/
def isReservedName (n : List Nat) : Bool :=
  strcaseeq n (bytesOf "name") || strcaseeq n (bytesOf "command") ||
    strcaseeq n (bytesOf "socket") || strcaseeq n (bytesOf "netcat") ||
    strcaseeq n (bytesOf "no_verify")

/-- The argv built in the `trans_ssh` case:
`command -p port [-l username] server (netcat|nc) -U (sockname|default)`
(without the terminating null pointer of the C array). -/
def ssh_argv (command port : List Nat) (username : Option (List Nat))
    (server : List Nat) (netcat sockname : Option (List Nat)) : List (List Nat) :=
  [command, bytesOf "-p", port] ++
    (match username with
     | some u => [bytesOf "-l", u]
     | none => []) ++
    [server, netcat.getD (bytesOf "nc"), bytesOf "-U",
      sockname.getD LIBVIRTD_UNIX_SOCKET]

/-- Everything `remoteOpen` has resolved by the time it dials the transport. -/
structure OpenParams where
  transport : Transport
  server : List Nat
  port : Option (List Nat)
  username : Option (List Nat)
  nameOverride : Option (List Nat)
  command : Option (List Nat)
  sockname : Option (List Nat)
  netcat : Option (List Nat)
  no_verify : Int
  rebuiltQuery : List Nat
  cmd_argv : Option (List (List Nat))
deriving DecidableEq

/-- Error taxonomy of the driver (`virErrorNumber` values used by this file). -/
inductive VirErrCode where
  | invalidArg
  | noMemory
  | systemErr
  | gnutlsErr
  | rpcErr
deriving DecidableEq

/-- Outcome of the parameter-resolution phase of `remoteOpen` (everything up
to and including the ssh argv construction, before any socket is made). -/
inductive OpenResult where
  | declined
  | openError (code : VirErrCode) (info : String)
  | proceed (p : OpenParams)
deriving DecidableEq

/-- The parameter-resolution phase of `remoteOpen`: URI checks, transport
choice, server and port defaults, query extraction and rebuild, the ext
command requirement, the Unix socket default and the ssh argv. -/
def remoteOpenParams (uri : Option URI) (ro : Bool) : OpenResult :=
  match uri with
  | none => .declined
  | some uri =>
    match uri.scheme with
    | none => .declined
    | some scheme =>
      let transport_str := get_transport_from_scheme scheme
      if uri.server = none ∧ transport_str = none then .declined
      else
        match parse_transport transport_str with
        | none =>
          .openError .invalidArg
            "remote_open: transport in URL not recognised (should be tls|unix|ssh|ext|tcp)"
        | some t =>
          let server := uri.server.getD (bytesOf "localhost")
          let pu := resolve_port_user t uri.port uri.user
          let ev := extractVars extract_init (query_parse (uri.query.getD []))
          let acc := ev.1
          let rebuilt := query_create ev.2
          if t = .ext ∧ acc.command = none then
            .openError .invalidArg
              "remote_open: for 'ext' transport, command is required"
          else
            .proceed
              { transport := t
                server := server
                port := pu.1
                username := pu.2
                nameOverride := acc.name
                command := if t = .ssh then some (acc.command.getD (bytesOf "ssh")) else acc.command
                sockname :=
                  if t = .unix then
                    some (acc.sockname.getD
                      (if ro then LIBVIRTD_UNIX_SOCKET_RO else LIBVIRTD_UNIX_SOCKET))
                  else acc.sockname
                netcat := acc.netcat
                no_verify := acc.no_verify
                rebuiltQuery := rebuilt
                cmd_argv :=
                  if t = .ssh then
                    some (ssh_argv (acc.command.getD (bytesOf "ssh")) (pu.1.getD [])
                      pu.2 server acc.netcat acc.sockname)
                  else none }

/-! ## The RPC engine (`call`, `really_read`, header validation) -/

/-- Modelled from the spec: `REMOTE_MESSAGE_MAX` is defined by the shared
protocol header, which is not part of `src/`; the spec gives the typical
ceiling of 256 KiB. -/
def REMOTE_MESSAGE_MAX : Int := 262144

/-- Modelled from the spec: the program number is a compile-time constant of
the shared protocol schema (header not part of `src/`). -/
def REMOTE_PROGRAM : Nat := 0x20008086

/-- Modelled from the spec: the protocol version constant of the shared
schema (header not part of `src/`). -/
def REMOTE_PROTOCOL_VERSION : Nat := 1

/-- Wire value of the `REMOTE_CALL` direction. -/
def REMOTE_CALL : Nat := 0

/-- Wire value of the `REMOTE_REPLY` direction. -/
def REMOTE_REPLY : Nat := 1

/-- Wire value of the `REMOTE_OK` status. -/
def REMOTE_OK : Nat := 0

/-- Wire value of the `REMOTE_ERROR` status. -/
def REMOTE_ERROR : Nat := 1

/-- `struct remote_message_header`: six unsigned 32-bit fields. -/
structure MsgHeader where
  prog : Nat
  vers : Nat
  proc : Nat
  direction : Nat
  serial : Nat
  status : Nat
deriving DecidableEq

/-- Big-endian unsigned 32-bit value of four bytes (XDR integer encoding). -/
def u32_of_bytes (b0 b1 b2 b3 : Nat) : Nat := ((b0 * 256 + b1) * 256 + b2) * 256 + b3

/-- Signed reading of a 32-bit word, as `xdr_int` yields a C `int`. -/
def i32_of_u32 (u : Nat) : Int := if u < 2 ^ 31 then (u : Int) else (u : Int) - 2 ^ 32

/-- XDR decode of one unsigned 32-bit integer from the front of a buffer. -/
def xdr_u32 : List Nat → Option (Nat × List Nat)
  | b0 :: b1 :: b2 :: b3 :: rest => some (u32_of_bytes b0 b1 b2 b3, rest)
  | _ => none

/-- `xdr_remote_message_header` in decode direction: six 32-bit words. -/
def xdr_remote_message_header (buf : List Nat) : Option (MsgHeader × List Nat) :=
  match xdr_u32 buf with
  | none => none
  | some (prog, r1) =>
    match xdr_u32 r1 with
    | none => none
    | some (vers, r2) =>
      match xdr_u32 r2 with
      | none => none
      | some (proc, r3) =>
        match xdr_u32 r3 with
        | none => none
        | some (dir, r4) =>
          match xdr_u32 r4 with
          | none => none
          | some (serial, r5) =>
            match xdr_u32 r5 with
            | none => none
            | some (status, r6) => some (⟨prog, vers, proc, dir, serial, status⟩, r6)

/-- A failure raised by `call` (via `error` or `__virRaiseError`). -/
inductive CallFailure where
  | simpleError (code : VirErrCode) (info : String)
  | raisedMismatch (msg : String) (received expected : Nat)
  | unknownStatus (received : Nat)
deriving DecidableEq

/-- What `call` hands back when the reply frame is structurally accepted. -/
inductive ReplyOutcome where
  | retOk (body : List Nat)
  | serverFault (body : List Nat)
deriving DecidableEq

/-- Lines 2327-2334 of `call`: subtract the self-inclusive 4 from the decoded
length word and reject when the payload length falls outside
`[0, REMOTE_MESSAGE_MAX]`. -/
def reply_length_check (len : Int) : Except CallFailure Int :=
  let len1 := len - 4
  if len1 < 0 ∨ len1 > REMOTE_MESSAGE_MAX then
    .error (.simpleError .rpcErr "packet received from server too large")
  else .ok len1

/-- Lines 2348-2388 of `call`: the reply header must match the request in
program, version, procedure, direction (`REMOTE_REPLY`) and serial, checked
in that order; each mismatch raises an RPC error carrying the received and
the expected value. -/
def check_header (hdr : MsgHeader) (proc_nr serial : Nat) : Except CallFailure Unit :=
  if hdr.prog ≠ REMOTE_PROGRAM then
    .error (.raisedMismatch "unknown program" hdr.prog REMOTE_PROGRAM)
  else if hdr.vers ≠ REMOTE_PROTOCOL_VERSION then
    .error (.raisedMismatch "unknown protocol version" hdr.vers REMOTE_PROTOCOL_VERSION)
  else if hdr.proc ≠ proc_nr then
    .error (.raisedMismatch "unknown procedure" hdr.proc proc_nr)
  else if hdr.direction ≠ REMOTE_REPLY then
    .error (.raisedMismatch "unknown direction" hdr.direction REMOTE_REPLY)
  else if hdr.serial ≠ serial then
    .error (.raisedMismatch "unknown serial" hdr.serial serial)
  else .ok ()

/-- The `switch (hdr.status)` of `call`: `REMOTE_OK` hands the rest of the
buffer to the return unmarshaller, `REMOTE_ERROR` to the structured error
decoder, anything else is an RPC error carrying the received status. -/
def dispatch_status (hdr : MsgHeader) (body : List Nat) : Except CallFailure ReplyOutcome :=
  if hdr.status = REMOTE_OK then .ok (.retOk body)
  else if hdr.status = REMOTE_ERROR then .ok (.serverFault body)
  else .error (.unknownStatus hdr.status)

/-- The receive half of `call` against a byte stream delivered by the peer:
read 4 length bytes (`really_read` turns a short stream into the error
"socket closed unexpectedly"), decode them signed, bounds-check via
`reply_length_check`, read exactly the payload, decode and validate the
header, then dispatch on the status.  The second component is the number of
stream bytes consumed. -/
def call_recv (proc_nr serial : Nat) (stream : List Nat) :
    Except CallFailure ReplyOutcome × Nat :=
  match stream with
  | b0 :: b1 :: b2 :: b3 :: rest =>
    let len := i32_of_u32 (u32_of_bytes b0 b1 b2 b3)
    match reply_length_check len with
    | .error e => (.error e, 4)
    | .ok payloadLen =>
      let n := payloadLen.toNat
      if n ≤ rest.length then
        match xdr_remote_message_header (rest.take n) with
        | none => (.error (.simpleError .rpcErr "xdr_remote_message_header (reply)"), 4 + n)
        | some (hdr, body) =>
          match check_header hdr proc_nr serial with
          | .error e => (.error e, 4 + n)
          | .ok _ => (dispatch_status hdr body, 4 + n)
      else (.error (.simpleError .rpcErr "socket closed unexpectedly"), stream.length)
  | _ => (.error (.simpleError .rpcErr "socket closed unexpectedly"), stream.length)

/-! ## Per-connection private data, serial numbers, close, closed handles -/

/-- `private_data->magic` value of a live handle. -/
def MAGIC : Nat := 999

/-- `private_data->magic` value of a dead or uninitialised handle. -/
def DEAD : Nat := 998

/-- `struct private_data`, with the socket and TLS session abstracted to
whether they are present.  `counter` is the C field `int counter`, a 32-bit
machine integer, held here as its 32-bit pattern (a `Nat` kept below `2^32`
by every write, which is explicitly reduced modulo `2^32`). -/
structure PrivData where
  magic : Nat
  sock : Int
  uses_tls : Bool
  hasSession : Bool
  type : Option (List Nat)
  counter : Nat
deriving DecidableEq

/-- The stack initialiser of `remoteOpen`:
`struct private_data priv = { .magic = DEAD, .sock = -1 };` — all other
members, the serial counter included, are zero-initialised. -/
def remoteOpen_init_priv : PrivData :=
  { magic := DEAD, sock := -1, uses_tls := false, hasSession := false,
    type := none, counter := 0 }

/-- Serial allocation at the top of `call`: `int serial = priv->counter++;`.
The counter is a 32-bit machine integer, so the increment wraps: the new
counter is the old one plus one reduced modulo `2^32` (the 32-bit pattern of
the incremented value). -/
def call_alloc_serial (p : PrivData) : Nat × PrivData :=
  (p.counter, { p with counter := (p.counter + 1) % 2 ^ 32 })

/-- Serials handed out by `n` consecutive calls on one connection, with the
final private state. -/
def serialsOfCalls : Nat → PrivData → List Nat × PrivData
  | 0, p => ([], p)
  | n + 1, p =>
    let sp := call_alloc_serial p
    let rp := serialsOfCalls n sp.2
    (sp.1 :: rp.1, rp.2)

/-- The request header built by `call` for procedure `proc_nr` and a given
serial. -/
def call_request_header (proc_nr serial : Nat) : MsgHeader :=
  { prog := REMOTE_PROGRAM, vers := REMOTE_PROTOCOL_VERSION, proc := proc_nr,
    direction := REMOTE_CALL, serial := serial, status := REMOTE_OK }

/-- The externally visible actions of `remoteClose`, in program order. -/
inductive CloseStep where
  | closeRpc
  | tlsBye
  | closeSock
  | freeType
deriving DecidableEq

/-- `remoteClose`: the `GET_PRIVATE` guard, then the close RPC — returning
`-1` at once when it fails — then `gnutls_bye` when a TLS session is
attached, `close (priv->sock)`, and the free of the cached type string.
`callOk` abstracts whether the close RPC succeeded. -/
def remoteClose (p : PrivData) (callOk : Bool) : Int × List CloseStep :=
  if p.magic = DEAD then (-1, [])
  else if callOk = false then (-1, [.closeRpc])
  else
    (0, [CloseStep.closeRpc] ++
      (if p.uses_tls ∧ p.hasSession then [CloseStep.tlsBye] else []) ++
      [CloseStep.closeSock] ++
      (if p.type.isSome then [CloseStep.freeType] else []))

/-- Modelled from the spec: `REMOTE_DOMAIN_ID_LIST_MAX` is a protocol-header
constant (header not part of `src/`). -/
def REMOTE_DOMAIN_ID_LIST_MAX : Int := 16384

/-- A representative set of driver operations guarded by `GET_PRIVATE`. -/
inductive RemoteOp where
  | close
  | type
  | version
  | getMaxVcpus
  | nodeGetInfo
  | getCapabilities
  | listDomains
  | numOfDomains
deriving DecidableEq

/-- Environment for one driver operation: whether the RPC succeeds, the
error it would raise when it fails, the type string a `GET_TYPE` reply
carries, and the `maxids` argument of `remoteListDomains`. -/
structure CallEnv where
  ok : Bool
  failRaise : VirErrCode × String
  typeVal : List Nat
  maxids : Int
deriving DecidableEq

/-- Observable outcome of one driver operation: the error it raised (if
any), whether it touched the network, and the private state afterwards. -/
structure OpOutcome where
  raised : Option (VirErrCode × String)
  usedNetwork : Bool
  post : PrivData
deriving DecidableEq

/-- One driver operation on the private data.  Every operation starts with
the `GET_PRIVATE` macro: a handle whose magic is `DEAD` raises
`VIR_ERR_INVALID_ARG` and returns before any network activity.  On a live
handle the operation performs its RPC (bumping the serial counter);
`remoteType` first consults the cache, `remoteListDomains` checks its
`maxids` bound before calling. -/
def applyOp (op : RemoteOp) (env : CallEnv) (p : PrivData) : OpOutcome :=
  if p.magic = DEAD then
    { raised := some (.invalidArg, "tried to use a closed or uninitialised handle"),
      usedNetwork := false, post := p }
  else
    match op with
    | .type =>
      if p.type.isSome then { raised := none, usedNetwork := false, post := p }
      else if env.ok then
        { raised := none, usedNetwork := true,
          post := { p with counter := (p.counter + 1) % 2 ^ 32, type := some env.typeVal } }
      else
        { raised := some env.failRaise, usedNetwork := true,
          post := { p with counter := (p.counter + 1) % 2 ^ 32 } }
    | .listDomains =>
      if env.maxids > REMOTE_DOMAIN_ID_LIST_MAX then
        { raised := some (.rpcErr, "maxids > REMOTE_DOMAIN_ID_LIST_MAX"),
          usedNetwork := false, post := p }
      else
        { raised := if env.ok then none else some env.failRaise, usedNetwork := true,
          post := { p with counter := (p.counter + 1) % 2 ^ 32 } }
    | _ =>
      { raised := if env.ok then none else some env.failRaise, usedNetwork := true,
        post := { p with counter := (p.counter + 1) % 2 ^ 32 } }

/-- A sequence of driver operations applied to the private state. -/
def runOps : List (RemoteOp × CallEnv) → PrivData → PrivData
  | [], p => p
  | oe :: rest, p => runOps rest (applyOp oe.1 oe.2 p).post

/-! ## General lemmas -/

/-- No operation body writes to `magic`: the liveness state of a handle is
preserved by every driver operation. -/
theorem applyOp_magic (op : RemoteOp) (env : CallEnv) (p : PrivData) :
    (applyOp op env p).post.magic = p.magic := by
  unfold applyOp
  split
  · rfl
  · cases op <;> dsimp only <;> split <;> first | rfl | (split <;> rfl)

/-- Serials allocated by consecutive calls: starting from a counter below
the wrap, call number `i` gets serial `(counter + i) % 2^32` and the counter
advances modulo `2^32`. -/
theorem serialsOfCalls_eq (n : Nat) :
    ∀ p : PrivData, p.counter < 2 ^ 32 →
      (serialsOfCalls n p).1 =
        (List.range n).map (fun i => (p.counter + i) % 2 ^ 32) ∧
      (serialsOfCalls n p).2 = { p with counter := (p.counter + n) % 2 ^ 32 } := by
  induction n with
  | zero =>
    intro p hp
    refine ⟨rfl, ?_⟩
    show p = _
    rw [show (p.counter + 0) % 2 ^ 32 = p.counter from by
      rw [Nat.add_zero, Nat.mod_eq_of_lt hp]]
  | succ n ih =>
    intro p hp
    have hlt : (p.counter + 1) % 2 ^ 32 < 2 ^ 32 := Nat.mod_lt _ (by norm_num)
    have h1 := (ih { p with counter := (p.counter + 1) % 2 ^ 32 } hlt).1
    have h2 := (ih { p with counter := (p.counter + 1) % 2 ^ 32 } hlt).2
    constructor
    · show p.counter :: (serialsOfCalls n ((call_alloc_serial p).2)).1 = _
      rw [show (call_alloc_serial p).2 =
          { p with counter := (p.counter + 1) % 2 ^ 32 } from rfl]
      rw [h1, List.range_succ_eq_map, List.map_cons, List.map_map]
      congr 1
      · rw [Nat.add_zero, Nat.mod_eq_of_lt hp]
      · congr 1
        funext i
        show ((p.counter + 1) % 2 ^ 32 + i) % 2 ^ 32 = (p.counter + (i + 1)) % 2 ^ 32
        rw [Nat.mod_add_mod]
        congr 1
        omega
    · show (serialsOfCalls n ((call_alloc_serial p).2)).2 = _
      rw [show (call_alloc_serial p).2 =
          { p with counter := (p.counter + 1) % 2 ^ 32 } from rfl]
      rw [h2]
      congr 1
      show ((p.counter + 1) % 2 ^ 32 + n) % 2 ^ 32 = (p.counter + (n + 1)) % 2 ^ 32
      rw [Nat.mod_add_mod]
      congr 1
      omega

/-! ## Claims C1 to C5, C7 -/

/-- C1 (counterexample): the claim says a length word equal to
`MAX_MESSAGE + 1` makes the call fail with an RPC error before any payload
is read; in the code the bounds check is on the payload length
`len - 4 ∈ [0, REMOTE_MESSAGE_MAX]`, so the word `REMOTE_MESSAGE_MAX + 1`
passes the check and the engine goes on to read the payload. -/
theorem c1_counterexample :
    reply_length_check (REMOTE_MESSAGE_MAX + 1) = .ok (REMOTE_MESSAGE_MAX - 3) := by
  unfold reply_length_check
  norm_num [REMOTE_MESSAGE_MAX]

/-- C1 (amended): after decoding the length word the engine rejects the
frame — consuming exactly the 4 length bytes, no payload — unless
`4 ≤ length ≤ REMOTE_MESSAGE_MAX + 4`; the length check accepts exactly
that range.  A word of `3` is rejected before any payload byte is read;
`REMOTE_MESSAGE_MAX + 1` is accepted. -/
theorem c1_theorem :
    (∀ (proc_nr serial b0 b1 b2 b3 : Nat) (rest : List Nat),
      i32_of_u32 (u32_of_bytes b0 b1 b2 b3) < 4 ∨
          REMOTE_MESSAGE_MAX + 4 < i32_of_u32 (u32_of_bytes b0 b1 b2 b3) →
        call_recv proc_nr serial (b0 :: b1 :: b2 :: b3 :: rest) =
          (.error (.simpleError .rpcErr "packet received from server too large"), 4))
    ∧ (∀ len : Int,
        reply_length_check len = .ok (len - 4) ↔ 4 ≤ len ∧ len ≤ REMOTE_MESSAGE_MAX + 4) := by
  constructor
  · intro proc_nr serial b0 b1 b2 b3 rest h
    have hrl : reply_length_check (i32_of_u32 (u32_of_bytes b0 b1 b2 b3)) =
        .error (.simpleError .rpcErr "packet received from server too large") := by
      unfold reply_length_check
      rw [if_pos]
      omega
    simp only [call_recv, hrl]
  · intro len
    unfold reply_length_check
    dsimp only
    split
    · constructor
      · intro h
        exact absurd h (by simp)
      · intro h
        omega
    · constructor
      · intro _
        omega
      · intro _
        rfl

/-- C1 (witness): a reply length word decoding to `3` fails the call with
the RPC error and exactly the 4 length bytes consumed. -/
theorem c1_witness :
    call_recv 5 0 [0, 0, 0, 3] =
      (.error (.simpleError .rpcErr "packet received from server too large"), 4) :=
  c1_theorem.1 5 0 0 0 0 3 [] (by decide)

/-- C2 (counterexample): on a live TLS connection with a cached type string,
a failing close RPC makes `remoteClose` return `-1` having performed only
the close RPC: the TLS bye, the socket close and the free of the cached
type are all skipped, contradicting the claim that every step is attempted. -/
theorem c2_counterexample :
    remoteClose
        { magic := 999, sock := 5, uses_tls := true, hasSession := true,
          type := some (bytesOf "QEMU"), counter := 7 } false =
      (-1, [CloseStep.closeRpc]) ∧
    CloseStep.closeSock ∉
      (remoteClose
        { magic := 999, sock := 5, uses_tls := true, hasSession := true,
          type := some (bytesOf "QEMU"), counter := 7 } false).2 := by
  constructor
  · rfl
  · decide

/-- C2 (amended): on a live handle `remoteClose` issues the close RPC first;
if that RPC fails it returns `-1` at once and performs none of the later
steps; if it succeeds it performs, in order, the TLS bye (when a TLS
session is attached), the socket close, and the free of the cached type
string (when present), and returns `0`. -/
theorem c2_theorem (p : PrivData) (callOk : Bool) (h : p.magic ≠ DEAD) :
    (callOk = false → remoteClose p callOk = (-1, [CloseStep.closeRpc])) ∧
    (callOk = true → remoteClose p callOk =
      (0, [CloseStep.closeRpc] ++
        (if p.uses_tls ∧ p.hasSession then [CloseStep.tlsBye] else []) ++
        [CloseStep.closeSock] ++
        (if p.type.isSome then [CloseStep.freeType] else []))) := by
  constructor
  · intro hc
    subst hc
    unfold remoteClose
    rw [if_neg h]
    rfl
  · intro hc
    subst hc
    unfold remoteClose
    rw [if_neg h]
    rfl

/-- C2 (witness): concrete instances of both branches on a live TLS handle
with a cached type string. -/
theorem c2_witness :
    remoteClose
        { magic := 999, sock := 5, uses_tls := true, hasSession := true,
          type := some (bytesOf "QEMU"), counter := 7 } true =
      (0, [CloseStep.closeRpc, CloseStep.tlsBye, CloseStep.closeSock,
           CloseStep.freeType]) := by
  have h := (c2_theorem
    { magic := 999, sock := 5, uses_tls := true, hasSession := true,
      type := some (bytesOf "QEMU"), counter := 7 } true (by decide)).2 rfl
  simpa using h

/-- C3: every driver operation on a handle whose magic is `DEAD` fails with
`VIR_ERR_INVALID_ARG` and the closed-handle message, touches no network, and
leaves the state unchanged; no operation ever changes the magic, so no
sequence of operations can bring a `DEAD` handle back to `MAGIC`. -/
theorem c3_theorem :
    (∀ (op : RemoteOp) (env : CallEnv) (p : PrivData), p.magic = DEAD →
      applyOp op env p =
        { raised := some (.invalidArg, "tried to use a closed or uninitialised handle"),
          usedNetwork := false, post := p }) ∧
    (∀ (op : RemoteOp) (env : CallEnv) (p : PrivData),
      (applyOp op env p).post.magic = p.magic) ∧
    (∀ (l : List (RemoteOp × CallEnv)) (p : PrivData),
      (runOps l p).magic = p.magic) := by
  refine ⟨?_, applyOp_magic, ?_⟩
  · intro op env p h
    unfold applyOp
    rw [if_pos h]
  · intro l
    induction l with
    | nil => intro p; rfl
    | cons oe rest ih =>
      intro p
      show (runOps rest (applyOp oe.1 oe.2 p).post).magic = p.magic
      rw [ih, applyOp_magic]

/-- C3 (witness): `remoteVersion` on the dead initial private data fails
with the invalid-argument error, no network, state unchanged. -/
theorem c3_witness :
    applyOp RemoteOp.version ⟨true, (.rpcErr, ""), [], 0⟩ remoteOpen_init_priv =
      { raised := some (.invalidArg, "tried to use a closed or uninitialised handle"),
        usedNetwork := false, post := remoteOpen_init_priv } :=
  c3_theorem.1 RemoteOp.version ⟨true, (.rpcErr, ""), [], 0⟩ remoteOpen_init_priv rfl

/-- C4: the reply header is accepted exactly when program, version,
procedure and serial equal the request values and the direction is
`REMOTE_REPLY`; each mismatch (checked in source order) fails the call with
an RPC error carrying the received and the expected value. -/
theorem c4_theorem (hdr : MsgHeader) (proc_nr serial : Nat) :
    (check_header hdr proc_nr serial = .ok () ↔
      hdr.prog = REMOTE_PROGRAM ∧ hdr.vers = REMOTE_PROTOCOL_VERSION ∧
        hdr.proc = proc_nr ∧ hdr.direction = REMOTE_REPLY ∧ hdr.serial = serial) ∧
    (hdr.prog ≠ REMOTE_PROGRAM →
      check_header hdr proc_nr serial =
        .error (.raisedMismatch "unknown program" hdr.prog REMOTE_PROGRAM)) ∧
    (hdr.prog = REMOTE_PROGRAM → hdr.vers ≠ REMOTE_PROTOCOL_VERSION →
      check_header hdr proc_nr serial =
        .error (.raisedMismatch "unknown protocol version" hdr.vers REMOTE_PROTOCOL_VERSION)) ∧
    (hdr.prog = REMOTE_PROGRAM → hdr.vers = REMOTE_PROTOCOL_VERSION → hdr.proc ≠ proc_nr →
      check_header hdr proc_nr serial =
        .error (.raisedMismatch "unknown procedure" hdr.proc proc_nr)) ∧
    (hdr.prog = REMOTE_PROGRAM → hdr.vers = REMOTE_PROTOCOL_VERSION → hdr.proc = proc_nr →
      hdr.direction ≠ REMOTE_REPLY →
      check_header hdr proc_nr serial =
        .error (.raisedMismatch "unknown direction" hdr.direction REMOTE_REPLY)) ∧
    (hdr.prog = REMOTE_PROGRAM → hdr.vers = REMOTE_PROTOCOL_VERSION → hdr.proc = proc_nr →
      hdr.direction = REMOTE_REPLY → hdr.serial ≠ serial →
      check_header hdr proc_nr serial =
        .error (.raisedMismatch "unknown serial" hdr.serial serial)) := by
  unfold check_header
  refine ⟨?_, ?_, ?_, ?_, ?_, ?_⟩
  · constructor
    · intro h
      by_contra hc
      split_ifs at h <;> simp_all
    · intro h
      obtain ⟨h1, h2, h3, h4, h5⟩ := h
      simp [h1, h2, h3, h4, h5]
  · intro h
    rw [if_pos h]
  · intro h1 h2
    rw [if_neg (by simp [h1]), if_pos h2]
  · intro h1 h2 h3
    rw [if_neg (by simp [h1]), if_neg (by simp [h2]), if_pos h3]
  · intro h1 h2 h3 h4
    rw [if_neg (by simp [h1]), if_neg (by simp [h2]), if_neg (by simp [h3]), if_pos h4]
  · intro h1 h2 h3 h4 h5
    rw [if_neg (by simp [h1]), if_neg (by simp [h2]), if_neg (by simp [h3]),
      if_neg (by simp [h4]), if_pos h5]

/-- C4 (witness): a reply matching everything but the serial fails with the
serial mismatch error carrying received and expected serial. -/
theorem c4_witness :
    check_header ⟨REMOTE_PROGRAM, REMOTE_PROTOCOL_VERSION, 7, REMOTE_REPLY, 5, 0⟩ 7 6 =
      .error (.raisedMismatch "unknown serial" 5 6) :=
  (c4_theorem ⟨REMOTE_PROGRAM, REMOTE_PROTOCOL_VERSION, 7, REMOTE_REPLY, 5, 0⟩ 7 6).2.2.2.2.2
    rfl rfl rfl rfl (by decide)

/-- C5 (counterexample): the claim promises serials exactly `0..n-1` for
every sequence of `n` calls, but the counter is a 32-bit machine integer:
after `2^32` calls it has wrapped, and call number `2^32` is assigned
serial `0` again, so the serial list of `2^32 + 1` calls is not
`0..2^32`. -/
theorem c5_counterexample :
    (serialsOfCalls (2 ^ 32 + 1) remoteOpen_init_priv).1 ≠
      List.range (2 ^ 32 + 1) := by
  intro h
  have h1 := (serialsOfCalls_eq (2 ^ 32 + 1) remoteOpen_init_priv (by decide)).1
  rw [h] at h1
  have h2 := congrArg (fun l : List Nat => l[2 ^ 32]?) h1
  simp only [List.getElem?_map] at h2
  rw [List.getElem?_range (Nat.lt_succ_self _)] at h2
  rw [show remoteOpen_init_priv.counter = 0 from rfl] at h2
  simp at h2

/-- C5 (amended): the serial counter of a fresh connection starts at 0 and
each call takes the counter and then increments it modulo `2^32` (the
counter is a 32-bit machine integer), so the serials of `n` consecutive
calls on one connection are `i % 2^32` for `i = 0, ..., n-1`; as long as
`n ≤ 2^32` they are exactly `0, 1, ..., n-1`, strictly increasing and
dense.  Beyond `2^32` calls the counter has wrapped. -/
theorem c5_theorem (n : Nat) :
    (serialsOfCalls n remoteOpen_init_priv).1 =
      (List.range n).map (fun i => i % 2 ^ 32) ∧
    (n ≤ 2 ^ 32 → (serialsOfCalls n remoteOpen_init_priv).1 = List.range n) ∧
    (serialsOfCalls n remoteOpen_init_priv).2.counter = n % 2 ^ 32 := by
  have h := serialsOfCalls_eq n remoteOpen_init_priv (by decide)
  have hzero : ∀ i : Nat, (remoteOpen_init_priv.counter + i) % 2 ^ 32 = i % 2 ^ 32 := by
    intro i
    show (0 + i) % 2 ^ 32 = i % 2 ^ 32
    rw [Nat.zero_add]
  refine ⟨?_, ?_, ?_⟩
  · rw [h.1]
    exact List.map_congr_left (fun i _ => hzero i)
  · intro hn
    rw [h.1]
    have hid : ∀ i ∈ List.range n,
        (remoteOpen_init_priv.counter + i) % 2 ^ 32 = i := by
      intro i hi
      have hin := List.mem_range.mp hi
      rw [hzero i, Nat.mod_eq_of_lt (by omega)]
    rw [List.map_congr_left hid]
    simp
  · rw [h.2]
    show (remoteOpen_init_priv.counter + n) % 2 ^ 32 = n % 2 ^ 32
    exact hzero n

/-- C5 (witness): three calls on a fresh connection get serials `[0, 1, 2]`,
the bound on the sequence length being met. -/
theorem c5_witness :
    3 ≤ 2 ^ 32 ∧ (serialsOfCalls 3 remoteOpen_init_priv).1 = List.range 3 :=
  ⟨by decide, (c5_theorem 3).2.1 (by decide)⟩

/-- C7 (counterexample): the claim says `query_parse` maps the string `"?"`
to the empty field list; the code treats `?` as an ordinary name character
and yields one field with name `"?"` and empty value. -/
theorem c7_counterexample : query_parse (bytesOf "?") ≠ [] := by decide

/-- C7 (amended): the boundary query strings parse as the claim says except
for `"?"`, which (the `?` delimiter being stripped by the URI parser before
`query_parse` runs) parses as the single field `("?", "")`. -/
theorem c7_theorem :
    query_parse (bytesOf "") = [] ∧
    query_parse (bytesOf "?") = [{ name := bytesOf "?", value := [], ignore := false }] ∧
    query_parse (bytesOf "&") = [] ∧
    query_parse (bytesOf "a") = [{ name := bytesOf "a", value := [], ignore := false }] ∧
    query_parse (bytesOf "a=") = [{ name := bytesOf "a", value := [], ignore := false }] ∧
    query_parse (bytesOf "=b") = [] ∧
    query_parse (bytesOf "a=b&c=d") =
      [{ name := bytesOf "a", value := bytesOf "b", ignore := false },
       { name := bytesOf "c", value := bytesOf "d", ignore := false }] := by
  refine ⟨rfl, by decide, rfl, by decide, by decide, by decide, by decide⟩

/-- ASCII lower-casing is idempotent. -/
theorem asciiLower_idem (c : Nat) : asciiLower (asciiLower c) = asciiLower c := by
  unfold asciiLower
  split_ifs <;> omega

/-- Lower-casing a whole byte string is idempotent. -/
theorem map_asciiLower_idem (s : List Nat) :
    (s.map asciiLower).map asciiLower = s.map asciiLower := by
  rw [List.map_map]
  congr 1
  funext c
  exact asciiLower_idem c

/-- `strcasecmp` equality does not care about the case of its left operand. -/
theorem strcaseeq_lower_left (s t : List Nat) :
    strcaseeq (s.map asciiLower) t = strcaseeq s t := by
  unfold strcaseeq
  rw [map_asciiLower_idem]

/-- C8: for `qemu+ssh://alice@host/system?netcat=ncat` the resolution phase
of `remoteOpen` yields exactly the argv
`[ssh, -p, 22, -l, alice, host, ncat, -U, LIBVIRTD_UNIX_SOCKET]`, the port
defaulting to 22, the command to `ssh` and the socket to the default Unix
socket path. -/
theorem c8_theorem :
    remoteOpenParams
        (some { scheme := some (bytesOf "qemu+ssh"), server := some (bytesOf "host"),
                port := 0, user := some (bytesOf "alice"),
                query := some (bytesOf "netcat=ncat") }) false =
      OpenResult.proceed
        { transport := .ssh, server := bytesOf "host", port := some (bytesOf "22"),
          username := some (bytesOf "alice"), nameOverride := none,
          command := some (bytesOf "ssh"), sockname := none,
          netcat := some (bytesOf "ncat"), no_verify := 0, rebuiltQuery := [],
          cmd_argv := some [bytesOf "ssh", bytesOf "-p", bytesOf "22", bytesOf "-l",
            bytesOf "alice", bytesOf "host", bytesOf "ncat", bytesOf "-U",
            LIBVIRTD_UNIX_SOCKET] } := by
  decide

/-- C9: transport suffix matching and reserved query key recognition are
ASCII case-insensitive: lower-casing a suffix never changes the selected
transport, `TLS` selects the TLS transport, lower-casing a field name never
changes whether the extraction loop marks it ignored, and the query key
`NAME` is extracted as the name override and dropped from the rebuilt
query. -/
theorem c9_theorem :
    (∀ s : List Nat, parse_transport (some (s.map asciiLower)) = parse_transport (some s)) ∧
    parse_transport (some (bytesOf "TLS")) = some Transport.tls ∧
    (∀ (acc : ExtractAcc) (f : QField),
      (extractStep acc { f with name := f.name.map asciiLower }).2.ignore =
        (extractStep acc f).2.ignore) ∧
    remoteOpenParams
        (some { scheme := some (bytesOf "qemu+tls"), server := some (bytesOf "host"),
                port := 0, user := none, query := some (bytesOf "NAME=foo") }) false =
      OpenResult.proceed
        { transport := .tls, server := bytesOf "host", port := some LIBVIRTD_TLS_PORT,
          username := none, nameOverride := some (bytesOf "foo"),
          command := none, sockname := none, netcat := none, no_verify := 0,
          rebuiltQuery := [], cmd_argv := none } := by
  refine ⟨?_, by decide, ?_, by decide⟩
  · intro s
    unfold parse_transport
    simp only [strcaseeq_lower_left]
  · intro acc f
    unfold extractStep
    dsimp only
    simp only [strcaseeq_lower_left]
    split_ifs <;> rfl

/-- C10: a URI with a transport suffix is never declined even without a
host; `qemu+tls:///` proceeds with server `localhost` and the default TLS
port. -/
theorem c10_theorem :
    (∀ (u : URI) (sch : List Nat) (ro : Bool), u.scheme = some sch →
      get_transport_from_scheme sch ≠ none →
      remoteOpenParams (some u) ro ≠ OpenResult.declined) ∧
    remoteOpenParams
        (some { scheme := some (bytesOf "qemu+tls"), server := none, port := 0,
                user := none, query := none }) false =
      OpenResult.proceed
        { transport := .tls, server := bytesOf "localhost",
          port := some LIBVIRTD_TLS_PORT, username := none, nameOverride := none,
          command := none, sockname := none, netcat := none, no_verify := 0,
          rebuiltQuery := [], cmd_argv := none } := by
  refine ⟨?_, by decide⟩
  intro u sch ro hs ht
  simp only [remoteOpenParams, hs]
  rw [if_neg (by simp [ht])]
  split
  · simp
  · split
    · simp
    · simp

/-- C10 (witness): the concrete URI `qemu+tls:///` is not declined. -/
theorem c10_witness :
    remoteOpenParams
        (some { scheme := some (bytesOf "qemu+tls"), server := none, port := 0,
                user := none, query := none }) false ≠ OpenResult.declined :=
  c10_theorem.1
    { scheme := some (bytesOf "qemu+tls"), server := none, port := 0,
      user := none, query := none }
    (bytesOf "qemu+tls") false rfl (by decide)

/-! ## Lemmas on the escape and unescape routines (towards claim C6) -/

/-- Hex digits emitted by the escaper are recognised by `is_hex`. -/
theorem hexDigitU_is_hex (v : Nat) (h : v < 16) : is_hex (hexDigitU v) = true := by
  unfold hexDigitU is_hex
  split_ifs <;> (simp only [decide_eq_true_eq]; omega)

/-- `hexVal` inverts `hexDigitU` on values below 16. -/
theorem hexVal_hexDigitU (v : Nat) (h : v < 16) : hexVal (hexDigitU v) = v := by
  unfold hexVal hexDigitU
  split_ifs <;> omega

/-- Hex digit characters are never the separator, the equals sign or the
percent sign. -/
theorem hexDigitU_ne (v : Nat) :
    hexDigitU v ≠ 38 ∧ hexDigitU v ≠ 61 ∧ hexDigitU v ≠ 37 := by
  unfold hexDigitU
  split_ifs <;> omega

/-- Bytes produced by `escapeChar` are never `&` or `=` (both are always
escaped, and neither appears as `%` or a hex digit). -/
theorem escapeChar_mem_ne (c d : Nat) (hd : d ∈ escapeChar c) : d ≠ 38 ∧ d ≠ 61 := by
  unfold escapeChar at hd
  split_ifs at hd with h
  · simp only [List.mem_singleton] at hd
    subst hd
    constructor <;> rintro rfl <;> revert h <;> decide
  · simp only [List.mem_cons, List.not_mem_nil, or_false] at hd
    rcases hd with rfl | rfl | rfl
    · exact ⟨by omega, by omega⟩
    · exact ⟨(hexDigitU_ne _).1, (hexDigitU_ne _).2.1⟩
    · exact ⟨(hexDigitU_ne _).1, (hexDigitU_ne _).2.1⟩

/-- `escapeChar` always emits at least one byte. -/
theorem escapeChar_ne_nil (c : Nat) : escapeChar c ≠ [] := by
  unfold escapeChar
  split_ifs <;> simp

/-- The escaped form of a nonempty string is nonempty. -/
theorem escStr_ne_nil (s : List Nat) (h : s ≠ []) : xmlURIEscapeStr s ≠ [] := by
  cases s with
  | nil => exact absurd rfl h
  | cons c t =>
    show escapeChar c ++ xmlURIEscapeStr t ≠ []
    simp [escapeChar_ne_nil c]

/-- No byte of an escaped string is the separator `&`. -/
theorem escStr_not38 (s : List Nat) : ∀ d ∈ xmlURIEscapeStr s, ((d == 38) = false) := by
  intro d hd
  simp only [xmlURIEscapeStr, List.mem_flatMap] at hd
  obtain ⟨c, _, hdc⟩ := hd
  simpa using (escapeChar_mem_ne c d hdc).1

/-- No byte of an escaped string is the equals sign `=`. -/
theorem escStr_not61 (s : List Nat) : ∀ d ∈ xmlURIEscapeStr s, ((d == 61) = false) := by
  intro d hd
  simp only [xmlURIEscapeStr, List.mem_flatMap] at hd
  obtain ⟨c, _, hdc⟩ := hd
  simpa using (escapeChar_mem_ne c d hdc).2

/-- Unescaping a string that does not start with `%` copies its head. -/
theorem unescape_cons_ne (c : Nat) (t : List Nat) (h : c ≠ 37) :
    xmlURIUnescapeString (c :: t) = c :: xmlURIUnescapeString t := by
  cases t with
  | nil => rfl
  | cons a t1 =>
    cases t1 with
    | nil => rfl
    | cons b t2 =>
      show (if c = 37 ∧ is_hex a ∧ is_hex b then _ else _) = _
      rw [if_neg (by simp [h])]

/-- Unescaping a nonempty string yields a nonempty string. -/
theorem unescape_ne_nil (s : List Nat) (h : s ≠ []) : xmlURIUnescapeString s ≠ [] := by
  match s with
  | [] => exact absurd rfl h
  | [a] => simp [xmlURIUnescapeString]
  | [a, b] => simp [xmlURIUnescapeString]
  | a :: b :: c :: t =>
    show (if a = 37 ∧ is_hex b ∧ is_hex c then _ else _) ≠ []
    split_ifs <;> simp

/-- `hexVal` of a hex digit is below 16. -/
theorem hexVal_lt (c : Nat) (h : is_hex c = true) : hexVal c < 16 := by
  unfold is_hex at h
  simp only [decide_eq_true_eq] at h
  unfold hexVal
  split_ifs <;> omega

/-- Unescaping a byte string yields a byte string. -/
theorem unescape_bytes :
    ∀ (fuel : Nat) (s : List Nat), s.length ≤ fuel → (∀ c ∈ s, c < 256) →
      ∀ c ∈ xmlURIUnescapeString s, c < 256 := by
  intro fuel
  induction fuel with
  | zero =>
    intro s hle _hs c hc
    have : s = [] := List.eq_nil_of_length_eq_zero (Nat.le_zero.mp hle)
    subst this
    simp [xmlURIUnescapeString] at hc
  | succ fuel ih =>
    intro s hle hs c hc
    match s, hle, hs, hc with
    | [], _, _, hc => simp [xmlURIUnescapeString] at hc
    | [a], _, hs, hc =>
      simp only [xmlURIUnescapeString, List.mem_singleton] at hc
      subst hc
      exact hs c (by simp)
    | [a, b], _, hs, hc =>
      simp only [xmlURIUnescapeString, List.mem_cons, List.not_mem_nil, or_false] at hc
      rcases hc with rfl | rfl
      · exact hs c (by simp)
      · exact hs c (by simp)
    | a :: b :: d :: t, hle, hs, hc =>
      by_cases hcond : a = 37 ∧ is_hex b ∧ is_hex d
      · rw [show xmlURIUnescapeString (a :: b :: d :: t) =
            (hexVal b * 16 + hexVal d) :: xmlURIUnescapeString t from by
          show (if a = 37 ∧ is_hex b ∧ is_hex d then _ else _) = _
          rw [if_pos hcond]] at hc
        rcases List.mem_cons.mp hc with rfl | hc2
        · have hb := hexVal_lt b hcond.2.1
          have hd := hexVal_lt d hcond.2.2
          omega
        · refine ih t (by simp at hle ⊢; omega) (fun x hx => hs x (by simp [hx])) c hc2
      · rw [show xmlURIUnescapeString (a :: b :: d :: t) =
            a :: xmlURIUnescapeString (b :: d :: t) from by
          show (if a = 37 ∧ is_hex b ∧ is_hex d then _ else _) = _
          rw [if_neg hcond]] at hc
        rcases List.mem_cons.mp hc with rfl | hc2
        · exact hs c (by simp)
        · refine ih (b :: d :: t) (by simp at hle ⊢; omega)
            (fun x hx => hs x (by simp [List.mem_cons] at hx ⊢; tauto)) c hc2

/-- Round trip of the escaper: unescaping the escaped form of a byte string
gives the string back. -/
theorem unescape_escape (s : List Nat) (hs : ∀ c ∈ s, c < 256) :
    xmlURIUnescapeString (xmlURIEscapeStr s) = s := by
  induction s with
  | nil => rfl
  | cons c t ih =>
    have hc : c < 256 := hs c (by simp)
    have ht : ∀ x ∈ t, x < 256 := fun x hx => hs x (by simp [hx])
    show xmlURIUnescapeString (escapeChar c ++ xmlURIEscapeStr t) = c :: t
    unfold escapeChar
    split_ifs with h
    · have h37 : c ≠ 37 := by rintro rfl; revert h; decide
      rw [List.singleton_append, unescape_cons_ne c _ h37, ih ht]
    · have hv1 : c / 16 < 16 := by omega
      have hv2 : c % 16 < 16 := by omega
      show xmlURIUnescapeString
          (37 :: hexDigitU (c / 16) :: hexDigitU (c % 16) :: xmlURIEscapeStr t) = c :: t
      rw [show xmlURIUnescapeString
            (37 :: hexDigitU (c / 16) :: hexDigitU (c % 16) :: xmlURIEscapeStr t) =
          (hexVal (hexDigitU (c / 16)) * 16 + hexVal (hexDigitU (c % 16))) ::
            xmlURIUnescapeString (xmlURIEscapeStr t) from by
        show (if 37 = 37 ∧ _ ∧ _ then _ else _) = _
        rw [if_pos ⟨rfl, hexDigitU_is_hex _ hv1, hexDigitU_is_hex _ hv2⟩]]
      rw [hexVal_hexDigitU _ hv1, hexVal_hexDigitU _ hv2, ih ht]
      congr 1
      omega

/-- `findIdx` skips a prefix on which the predicate is false. -/
theorem findIdx_append_none (p : Nat → Bool) (a b : List Nat)
    (h : ∀ c ∈ a, p c = false) :
    (a ++ b).findIdx p = a.length + b.findIdx p := by
  induction a with
  | nil => simp
  | cons c t ih =>
    rw [List.cons_append, List.findIdx_cons, h c (List.mem_cons_self c t)]
    rw [ih (fun x hx => h x (List.mem_cons_of_mem c hx))]
    simp only [cond_false, List.length_cons]
    omega

/-- `findIdx` finds the first position where the predicate holds, after a
prefix on which it is false. -/
theorem findIdx_append_found (p : Nat → Bool) (a b : List Nat) (x : Nat)
    (h : ∀ c ∈ a, p c = false) (hx : p x = true) :
    (a ++ x :: b).findIdx p = a.length := by
  rw [findIdx_append_none p a _ h, List.findIdx_cons, hx]
  simp

/-- On a list where the predicate never holds, `findIdx` returns the length. -/
theorem findIdx_all_false (p : Nat → Bool) (a : List Nat)
    (h : ∀ c ∈ a, p c = false) : a.findIdx p = a.length := by
  have := findIdx_append_none p a [] h
  simpa using this

/-- The parse loop ignores the fuel on an empty string. -/
theorem query_parse_go_nil (fuel : Nat) : query_parse_go fuel [] = [] := by
  cases fuel <;> rfl

/-- Unfolding equation of the parse loop on a nonempty string with positive
fuel, with the local definitions of the body expanded. -/
theorem query_parse_go_cons (fuel : Nat) (c : Nat) (s0 : List Nat) :
    query_parse_go (fuel + 1) (c :: s0) =
      (if (c :: s0).findIdx (· == 38) = 0 then
        query_parse_go fuel ((c :: s0).drop ((c :: s0).findIdx (· == 38) + 1))
       else if (c :: s0).findIdx (· == 38) ≤ (c :: s0).findIdx (· == 61) then
        { name := xmlURIUnescapeLen (c :: s0) ((c :: s0).findIdx (· == 38)),
          value := [], ignore := false } ::
          query_parse_go fuel ((c :: s0).drop ((c :: s0).findIdx (· == 38) + 1))
       else if (c :: s0).findIdx (· == 61) + 1 = (c :: s0).findIdx (· == 38) then
        { name := xmlURIUnescapeLen (c :: s0) ((c :: s0).findIdx (· == 61)),
          value := [], ignore := false } ::
          query_parse_go fuel ((c :: s0).drop ((c :: s0).findIdx (· == 38) + 1))
       else if (c :: s0).findIdx (· == 61) = 0 then
        query_parse_go fuel ((c :: s0).drop ((c :: s0).findIdx (· == 38) + 1))
       else
        { name := xmlURIUnescapeLen (c :: s0) ((c :: s0).findIdx (· == 61)),
          value := xmlURIUnescapeLen ((c :: s0).drop ((c :: s0).findIdx (· == 61) + 1))
            ((c :: s0).findIdx (· == 38) - ((c :: s0).findIdx (· == 61) + 1)),
          ignore := false } ::
          query_parse_go fuel ((c :: s0).drop ((c :: s0).findIdx (· == 38) + 1))) := rfl

/-- The parse loop does not depend on the fuel once the fuel covers the
length of the string. -/
theorem query_parse_go_fuel (fuel : Nat) :
    ∀ (extra : Nat) (s : List Nat), s.length ≤ fuel →
      query_parse_go (fuel + extra) s = query_parse_go fuel s := by
  induction fuel with
  | zero =>
    intro extra s hle
    have hs : s = [] := List.eq_nil_of_length_eq_zero (Nat.le_zero.mp hle)
    subst hs
    rw [query_parse_go_nil, query_parse_go_nil]
  | succ fuel ih =>
    intro extra s hle
    cases s with
    | nil => rw [query_parse_go_nil, query_parse_go_nil]
    | cons c s0 =>
      rw [show fuel + 1 + extra = (fuel + extra) + 1 from by omega]
      rw [query_parse_go_cons, query_parse_go_cons]
      have hlen : ((c :: s0).drop (((c :: s0).findIdx (· == 38)) + 1)).length ≤ fuel := by
        simp only [List.length_drop]
        simp only [List.length_cons] at hle ⊢
        omega
      rw [ih extra _ hlen]

/-- `query_parse` is the parse loop run with fuel equal to the length. -/
theorem query_parse_eq_go (s : List Nat) :
    query_parse s = query_parse_go s.length s := by
  unfold query_parse
  split
  · subst ‹s = []›
    rw [query_parse_go_nil]
  · rfl

/-- Any sufficient fuel computes `query_parse`. -/
theorem go_eq_parse (fuel : Nat) (s : List Nat) (h : s.length ≤ fuel) :
    query_parse_go fuel s = query_parse s := by
  rw [query_parse_eq_go]
  have : fuel = s.length + (fuel - s.length) := by omega
  rw [this, query_parse_go_fuel s.length (fuel - s.length) s (Nat.le_refl _)]

/-- Parsing one encoded field off the front of the query string: the loop
takes the section `field_enc n v`, yields exactly the field `(n, v)` (names
are nonempty byte strings, values byte strings), and continues after the
separator. -/
theorem go_parse_section (fuel : Nat) (n v tail : List Nat)
    (hn : n ≠ []) (hnb : ∀ c ∈ n, c < 256) (hvb : ∀ c ∈ v, c < 256)
    (htail : tail = [] ∨ ∃ r, tail = 38 :: r)
    (hfuel : (field_enc n v ++ tail).length ≤ fuel) :
    query_parse_go fuel (field_enc n v ++ tail) =
      { name := n, value := v, ignore := false } :: query_parse (tail.drop 1) := by
  obtain ⟨cN, tN, hN⟩ := List.exists_cons_of_ne_nil (escStr_ne_nil n hn)
  have hA1 : 1 ≤ (xmlURIEscapeStr n).length := by rw [hN]; simp
  have hsh : field_enc n v ++ tail =
      xmlURIEscapeStr n ++ 61 :: (xmlURIEscapeStr v ++ tail) := by
    simp [field_enc]
  have hpre38 : ∀ d ∈ xmlURIEscapeStr n ++ 61 :: xmlURIEscapeStr v, ((d == 38) = false) := by
    intro d hd
    rcases List.mem_append.mp hd with h1 | h2
    · exact escStr_not38 n d h1
    · rcases List.mem_cons.mp h2 with rfl | h3
      · rfl
      · exact escStr_not38 v d h3
  have heqi : (field_enc n v ++ tail).findIdx (· == 61) = (xmlURIEscapeStr n).length := by
    rw [hsh]
    exact findIdx_append_found _ _ _ 61 (escStr_not61 n) rfl
  have hname : xmlURIUnescapeLen (field_enc n v ++ tail) (xmlURIEscapeStr n).length = n := by
    unfold xmlURIUnescapeLen
    rw [if_neg (by omega), hsh, List.take_left _ _]
    exact unescape_escape n hnb
  have hdropN : (field_enc n v ++ tail).drop ((xmlURIEscapeStr n).length + 1) =
      xmlURIEscapeStr v ++ tail := by
    rw [hsh]
    rw [show xmlURIEscapeStr n ++ 61 :: (xmlURIEscapeStr v ++ tail) =
        (xmlURIEscapeStr n ++ [61]) ++ (xmlURIEscapeStr v ++ tail) from by simp]
    exact List.drop_left' (by simp)
  have hval : v ≠ [] →
      xmlURIUnescapeLen (xmlURIEscapeStr v ++ tail) (xmlURIEscapeStr v).length = v := by
    intro hv
    have hB1 : 1 ≤ (xmlURIEscapeStr v).length := List.length_pos.mpr (escStr_ne_nil v hv)
    unfold xmlURIUnescapeLen
    rw [if_neg (by omega), List.take_left _ _]
    exact unescape_escape v hvb
  have hslen : (field_enc n v ++ tail).length =
      (xmlURIEscapeStr n).length + 1 + (xmlURIEscapeStr v).length + tail.length := by
    rw [hsh]
    simp only [List.length_append, List.length_cons]
    omega
  cases fuel with
  | zero =>
    exfalso
    rw [hslen] at hfuel
    omega
  | succ f0 =>
    have hscons : field_enc n v ++ tail =
        cN :: (tN ++ 61 :: (xmlURIEscapeStr v ++ tail)) := by
      rw [hsh, hN]
      simp
    rcases htail with rfl | ⟨r, rfl⟩
    · -- run ends at the end of the string
      have hall38 : ∀ d ∈ field_enc n v ++ ([] : List Nat), ((d == 38) = false) := by
        intro d hd
        rw [hsh] at hd
        simp only [List.append_nil] at hd
        exact hpre38 d hd
      have he : (field_enc n v ++ ([] : List Nat)).findIdx (· == 38) =
          (xmlURIEscapeStr n).length + 1 + (xmlURIEscapeStr v).length := by
        rw [findIdx_all_false _ _ hall38, hslen]
        simp
      have hdropE : (field_enc n v ++ ([] : List Nat)).drop
          ((xmlURIEscapeStr n).length + 1 + (xmlURIEscapeStr v).length + 1) = [] := by
        apply List.drop_eq_nil_of_le
        rw [hslen]
        simp
      rw [hscons, query_parse_go_cons, ← hscons, he, heqi]
      rw [if_neg (by omega), if_neg (by omega)]
      by_cases hv : v = []
      · subst hv
        rw [if_pos (by simp [xmlURIEscapeStr])]
        rw [hname, hdropE, query_parse_go_nil]
        rfl
      · have hB1 : 1 ≤ (xmlURIEscapeStr v).length := List.length_pos.mpr (escStr_ne_nil v hv)
        rw [if_neg (by omega), if_neg (by omega)]
        rw [hname, hdropN]
        rw [show (xmlURIEscapeStr n).length + 1 + (xmlURIEscapeStr v).length -
            ((xmlURIEscapeStr n).length + 1) = (xmlURIEscapeStr v).length from by omega]
        rw [hval hv, hdropE, query_parse_go_nil]
        rfl
    · -- run continues after the separator
      have he : (field_enc n v ++ 38 :: r).findIdx (· == 38) =
          (xmlURIEscapeStr n).length + 1 + (xmlURIEscapeStr v).length := by
        rw [hsh]
        rw [show xmlURIEscapeStr n ++ 61 :: (xmlURIEscapeStr v ++ 38 :: r) =
            (xmlURIEscapeStr n ++ 61 :: xmlURIEscapeStr v) ++ 38 :: r from by simp]
        rw [findIdx_append_found _ _ r 38 hpre38 rfl]
        simp only [List.length_append, List.length_cons]
        omega
      have hdropE : (field_enc n v ++ 38 :: r).drop
          ((xmlURIEscapeStr n).length + 1 + (xmlURIEscapeStr v).length + 1) = r := by
        rw [hsh]
        rw [show xmlURIEscapeStr n ++ 61 :: (xmlURIEscapeStr v ++ 38 :: r) =
            ((xmlURIEscapeStr n ++ 61 :: xmlURIEscapeStr v) ++ [38]) ++ r from by simp]
        apply List.drop_left'
        simp only [List.length_append, List.length_cons, List.length_nil]
        omega
      have hrlen : r.length ≤ f0 := by
        rw [hslen] at hfuel
        simp only [List.length_cons] at hfuel
        omega
      rw [hscons, query_parse_go_cons, ← hscons, he, heqi]
      rw [if_neg (by omega), if_neg (by omega)]
      by_cases hv : v = []
      · subst hv
        rw [if_pos (by simp [xmlURIEscapeStr])]
        rw [hname, hdropE, go_eq_parse f0 r hrlen]
        rfl
      · have hB1 : 1 ≤ (xmlURIEscapeStr v).length := List.length_pos.mpr (escStr_ne_nil v hv)
        rw [if_neg (by omega), if_neg (by omega)]
        rw [hname, hdropN]
        rw [show (xmlURIEscapeStr n).length + 1 + (xmlURIEscapeStr v).length -
            ((xmlURIEscapeStr n).length + 1) = (xmlURIEscapeStr v).length from by omega]
        rw [hval hv, hdropE, go_eq_parse f0 r hrlen]
        rfl

/-- A field record with `ignore = false` is the whole field. -/
theorem qfield_eta (f : QField) (h : f.ignore = false) :
    ({ name := f.name, value := f.value, ignore := false } : QField) = f := by
  cases f
  simp_all

/-- The create loop with a pending separator emits the separator first
exactly when some remaining field is live. -/
theorem query_create_loop_true (fs : List QField) :
    query_create_loop true fs =
      if fs.all (fun f => f.ignore) then [] else 38 :: query_create_loop false fs := by
  induction fs with
  | nil => rfl
  | cons f rest ih =>
    by_cases hi : f.ignore
    · have h1 : query_create_loop true (f :: rest) = query_create_loop true rest := by
        simp [query_create_loop, hi]
      have h2 : query_create_loop false (f :: rest) = query_create_loop false rest := by
        simp [query_create_loop, hi]
      rw [h1, h2, ih]
      simp [List.all_cons, hi]
    · have hi' : f.ignore = false := by simpa using hi
      simp [query_create_loop, hi', List.all_cons]

/-- Parsing the output of `query_create` recovers exactly the live fields,
in order, with names and values intact. -/
theorem parse_create (fs : List QField)
    (hf : ∀ f ∈ fs, f.name ≠ [] ∧ (∀ c ∈ f.name, c < 256) ∧ (∀ c ∈ f.value, c < 256)) :
    query_parse (query_create fs) = fs.filter (fun f => !f.ignore) := by
  induction fs with
  | nil => rfl
  | cons f rest ih =>
    obtain ⟨hn, hnb, hvb⟩ := hf f (List.mem_cons_self f rest)
    have hrest := fun x hx => hf x (List.mem_cons_of_mem f hx)
    by_cases hi : f.ignore
    · have h1 : query_create (f :: rest) = query_create rest := by
        simp [query_create, query_create_loop, hi]
      rw [h1, ih hrest, List.filter_cons_of_neg (by simp [hi])]
    · have hi' : f.ignore = false := by simpa using hi
      have h1 : query_create (f :: rest) =
          field_enc f.name f.value ++ query_create_loop true rest := by
        simp [query_create, query_create_loop, hi', field_enc]
      rw [h1, query_create_loop_true rest]
      by_cases hall : rest.all (fun g => g.ignore)
      · rw [if_pos hall]
        rw [query_parse_eq_go,
          go_parse_section _ f.name f.value [] hn hnb hvb (Or.inl rfl) (Nat.le_refl _)]
        have hfilter : rest.filter (fun g => !g.ignore) = [] := by
          rw [List.filter_eq_nil_iff]
          intro a ha
          have := List.all_eq_true.mp hall a ha
          simp_all
        rw [List.filter_cons_of_pos (by simp [hi']), hfilter, qfield_eta f hi']
        rfl
      · rw [if_neg hall]
        rw [query_parse_eq_go,
          go_parse_section _ f.name f.value (38 :: query_create_loop false rest)
            hn hnb hvb (Or.inr ⟨_, rfl⟩) (Nat.le_refl _)]
        rw [show (38 :: query_create_loop false rest).drop 1 =
            query_create_loop false rest from rfl]
        rw [show query_create_loop false rest = query_create rest from rfl]
        rw [ih hrest, List.filter_cons_of_pos (by simp [hi']), qfield_eta f hi']

/-- Every field produced by the parse loop has a nonempty byte-string name,
a byte-string value, and a cleared ignore flag. -/
theorem parse_fields_good :
    ∀ (fuel : Nat) (s : List Nat), s.length ≤ fuel → (∀ c ∈ s, c < 256) →
      ∀ f ∈ query_parse_go fuel s,
        f.name ≠ [] ∧ (∀ c ∈ f.name, c < 256) ∧ (∀ c ∈ f.value, c < 256) ∧
          f.ignore = false := by
  intro fuel
  induction fuel with
  | zero =>
    intro s hle _hs f hf
    have hs0 : s = [] := List.eq_nil_of_length_eq_zero (Nat.le_zero.mp hle)
    subst hs0
    rw [query_parse_go_nil] at hf
    simp at hf
  | succ fuel ih =>
    intro s hle hs f hf
    cases s with
    | nil =>
      rw [query_parse_go_nil] at hf
      simp at hf
    | cons c s0 =>
      rw [query_parse_go_cons] at hf
      have hsub : ∀ x ∈ (c :: s0).drop ((c :: s0).findIdx (· == 38) + 1), x < 256 :=
        fun x hx => hs x (List.drop_subset _ _ hx)
      have hlen : ((c :: s0).drop ((c :: s0).findIdx (· == 38) + 1)).length ≤ fuel := by
        simp only [List.length_drop, List.length_cons]
        simp only [List.length_cons] at hle
        omega
      have hgoodLen : ∀ len : Nat, xmlURIUnescapeLen (c :: s0) len ≠ [] ∧
          (∀ x ∈ xmlURIUnescapeLen (c :: s0) len, x < 256) := by
        intro len
        unfold xmlURIUnescapeLen
        split_ifs with h0
        · exact ⟨unescape_ne_nil _ (by simp),
            fun x hx => unescape_bytes (c :: s0).length _ (Nat.le_refl _) hs x hx⟩
        · constructor
          · apply unescape_ne_nil
            intro hcon
            rw [List.take_eq_nil_iff] at hcon
            simp_all
          · intro x hx
            refine unescape_bytes ((c :: s0).take len).length _ (Nat.le_refl _) ?_ x hx
            exact fun y hy => hs y (List.take_subset _ _ hy)
      have hvbytes : ∀ (k len : Nat),
          ∀ x ∈ xmlURIUnescapeLen ((c :: s0).drop k) len, x < 256 := by
        intro k len x hx
        have hdb : ∀ y ∈ (c :: s0).drop k, y < 256 :=
          fun y hy => hs y (List.drop_subset _ _ hy)
        unfold xmlURIUnescapeLen at hx
        split_ifs at hx
        · exact unescape_bytes ((c :: s0).drop k).length _ (Nat.le_refl _) hdb x hx
        · refine unescape_bytes (((c :: s0).drop k).take len).length _ (Nat.le_refl _) ?_ x hx
          exact fun y hy => hdb y (List.take_subset _ _ hy)
      split_ifs at hf with h1 h2 h3 h4
      · exact ih _ hlen hsub f hf
      · rcases List.mem_cons.mp hf with rfl | hf2
        · exact ⟨(hgoodLen _).1, (hgoodLen _).2, by simp, rfl⟩
        · exact ih _ hlen hsub f hf2
      · rcases List.mem_cons.mp hf with rfl | hf2
        · exact ⟨(hgoodLen _).1, (hgoodLen _).2, by simp, rfl⟩
        · exact ih _ hlen hsub f hf2
      · exact ih _ hlen hsub f hf
      · rcases List.mem_cons.mp hf with rfl | hf2
        · exact ⟨(hgoodLen _).1, (hgoodLen _).2, hvbytes _ _, rfl⟩
        · exact ih _ hlen hsub f hf2

/-- One extraction step marks exactly the reserved names ignored and leaves
everything else alone. -/
theorem extractStep_snd (acc : ExtractAcc) (f : QField) :
    (extractStep acc f).2 =
      if isReservedName f.name then { f with ignore := true } else f := by
  unfold extractStep isReservedName
  split_ifs with h1 h2 h3 h4 h5 <;> simp_all

/-- The extraction loop maps every field to its marked form, preserving the
order and the names and values. -/
theorem extractVars_snd (acc : ExtractAcc) (fs : List QField) :
    (extractVars acc fs).2 =
      fs.map (fun f => if isReservedName f.name then { f with ignore := true } else f) := by
  induction fs generalizing acc with
  | nil => rfl
  | cons f rest ih =>
    show (extractStep acc f).2 :: (extractVars (extractStep acc f).1 rest).2 = _
    rw [extractStep_snd, ih, List.map_cons]

/-- C6: parsing a query string, letting `remoteOpen` extract and mark the
reserved keys, and re-serialising with `query_create` yields a query string
that parses back to exactly the non-reserved parameters, names and values
preserved, in their original relative order. -/
theorem c6_theorem (q : List Nat) (hq : ∀ c ∈ q, c < 256) :
    query_parse (query_create (extractVars extract_init (query_parse q)).2) =
      (query_parse q).filter (fun f => !isReservedName f.name) := by
  have hgood : ∀ f ∈ query_parse q,
      f.name ≠ [] ∧ (∀ c ∈ f.name, c < 256) ∧ (∀ c ∈ f.value, c < 256) ∧
        f.ignore = false := by
    intro f hf
    rw [query_parse_eq_go] at hf
    exact parse_fields_good q.length q (Nat.le_refl _) hq f hf
  rw [extractVars_snd]
  rw [parse_create]
  · rw [List.filter_map]
    have hcong : ∀ f ∈ query_parse q,
        ((fun g => !g.ignore) ∘
          (fun g => if isReservedName g.name then { g with ignore := true } else g)) f =
          (!isReservedName f.name) := by
      intro f hf
      have hig := (hgood f hf).2.2.2
      by_cases hr : isReservedName f.name <;> simp [Function.comp, hr, hig]
    rw [List.filter_congr hcong]
    have hid : ∀ f ∈ (query_parse q).filter (fun f => !isReservedName f.name),
        (fun g => if isReservedName g.name then { g with ignore := true } else g) f = f := by
      intro f hf
      have hr := List.of_mem_filter hf
      simp only [Bool.not_eq_true'] at hr
      simp [hr]
    rw [List.map_congr_left hid]
    simp
  · intro f hf
    rw [List.mem_map] at hf
    obtain ⟨g, hg, rfl⟩ := hf
    obtain ⟨h1, h2, h3, _⟩ := hgood g hg
    by_cases hr : isReservedName g.name <;> simp [hr] <;> exact ⟨h1, h2, h3⟩

/-- C6 (witness): a concrete query mixing live and reserved keys and a
percent-escaped byte. -/
theorem c6_witness :
    (∀ c ∈ bytesOf "a=b&NAME=x&c%20=d&no_verify=1", c < 256) ∧
    query_parse
        (query_create
          (extractVars extract_init
            (query_parse (bytesOf "a=b&NAME=x&c%20=d&no_verify=1"))).2) =
      (query_parse (bytesOf "a=b&NAME=x&c%20=d&no_verify=1")).filter
        (fun f => !isReservedName f.name) :=
  ⟨by decide, c6_theorem (bytesOf "a=b&NAME=x&c%20=d&no_verify=1") (by decide)⟩
